import Mathlib

/-!
Verification development for the habititcan repository.

The two pieces of logic with algorithmic content are embedded here:

* the quota decomposer (`HabiticaAPI.break_down_difficulty`) and the
  story-point batch consumer (`HabiticaAPI.log_story_points`) from
  `habitica.py`;
* the snapshot differs (`TrelloListMonitor.compare_cards` and
  `TrelloBoardMonitor.compare_cards`) and the polling drivers
  (`monitor`) from `trello.py` and `trello_board.py`.

Numeric values (Python floats over this code path are decimal quantities
handled with an explicit round-to-1-decimal after each arithmetic step)
are modelled as rationals; Python `round(x, 1)` is modelled as
round-half-to-even at one decimal, `int(x)` as truncation toward zero.
Python dicts are modelled as association lists in insertion order with
unique keys; dict equality is key-set equality with equal values.
Python exceptions are modelled with `Except`.
-/

/-- Python exceptions raised or propagated by the embedded code paths. -/
inductive PyErr : Type
  | valueError (msg : String)
  | keyError (key : String)
deriving DecidableEq

deriving instance DecidableEq for Except

/-- Embedding of Python `int(x)` on a rational: truncation toward zero.
Uses the executable `Rat.floor`, which agrees with `Int.floor`. -/
def pyInt (x : ℚ) : ℤ :=
  if 0 ≤ x then x.floor else -((-x).floor)

/-- Embedding of Python `round(x)` to an integer: round half to even. -/
def pyRoundInt (x : ℚ) : ℤ :=
  let f := x.floor
  let r := x - (f : ℚ)
  if r < 1/2 then f
  else if 1/2 < r then f + 1
  else if f % 2 = 0 then f else f + 1

/-- Embedding of Python `round(x, 1)`: round to one decimal place,
half to even. -/
def round1 (x : ℚ) : ℚ :=
  (pyRoundInt (10 * x) : ℚ) / 10

/-- The denomination table of `break_down_difficulty` (habitica.py,
lines 315-320), in its fixed descending order. -/
def difficulties : List (String × ℚ) :=
  [("hard", 2), ("medium", 3/2), ("easy", 1), ("trivial", 1/10)]

/-- The greedy loop of `break_down_difficulty` (habitica.py, lines
322-329): walk the denomination table, take `count = int(remaining /
points)`, record it, and update `remaining = round(remaining - count *
points, 1)`.  Returns the recorded counts in insertion order together
with the final value of `remaining` (which the source keeps only in a
local variable). -/
def breakDownAux (value : ℚ) : List (String × ℤ) × ℚ :=
  difficulties.foldl
    (fun acc d =>
      let count := pyInt (acc.2 / d.2)
      (acc.1 ++ [(d.1, count)], round1 (acc.2 - (count : ℚ) * d.2)))
    ([], value)

/-- Embedding of `HabiticaAPI.break_down_difficulty` (habitica.py,
lines 300-331): raises `ValueError` on a negative input, otherwise
returns the dict of per-difficulty counts (as an insertion-ordered
association list).  The final remainder is not part of the returned
value, exactly as in the source. -/
def break_down_difficulty (value : ℚ) : Except PyErr (List (String × ℤ)) :=
  if value < 0 then
    Except.error (PyErr.valueError "Value must be non-negative")
  else
    Except.ok (breakDownAux value).1

/-- The specification stepping rule, first half: at each step
`count = floor(remaining / unit_value)`. -/
def specCount (remaining unit : ℚ) : ℤ := ⌊remaining / unit⌋

/-- The specification stepping rule, second half: update
`remaining = round(remaining - count * unit_value, 1 decimal place)`. -/
def specNext (remaining unit : ℚ) : ℚ :=
  round1 (remaining - (specCount remaining unit : ℚ) * unit)

/-- Remaining value after the `hard` step of the specification rule. -/
def specRem1 (v : ℚ) : ℚ := specNext v 2

/-- Remaining value after the `medium` step of the specification rule. -/
def specRem2 (v : ℚ) : ℚ := specNext (specRem1 v) (3/2)

/-- Remaining value after the `easy` step of the specification rule. -/
def specRem3 (v : ℚ) : ℚ := specNext (specRem2 v) 1

/-- Remaining value after the `trivial` step of the specification rule. -/
def specRem4 (v : ℚ) : ℚ := specNext (specRem3 v) (1/10)

lemma ratFloor_eq_intFloor (q : ℚ) : q.floor = ⌊q⌋ :=
  le_antisymm (Int.le_floor.mpr (Rat.le_floor.mp le_rfl))
    (Rat.le_floor.mpr (Int.floor_le q))

lemma pyInt_of_nonneg {q : ℚ} (h : 0 ≤ q) : pyInt q = ⌊q⌋ := by
  rw [pyInt, if_pos h, ratFloor_eq_intFloor]

lemma pyInt_eq_of {q : ℚ} {z : ℤ} (h0 : 0 ≤ q) (h1 : (z : ℚ) ≤ q)
    (h2 : q < z + 1) : pyInt q = z := by
  rw [pyInt_of_nonneg h0]
  exact Int.floor_eq_iff.mpr ⟨h1, h2⟩

lemma pyRoundInt_nonneg {q : ℚ} (h : 0 ≤ q) : 0 ≤ pyRoundInt q := by
  have hf : (0 : ℤ) ≤ ⌊q⌋ := Int.floor_nonneg.mpr h
  rw [pyRoundInt]
  simp only [ratFloor_eq_intFloor]
  split_ifs <;> omega

lemma round1_nonneg {q : ℚ} (h : 0 ≤ q) : 0 ≤ round1 q := by
  rw [round1]
  have : (0 : ℤ) ≤ pyRoundInt (10 * q) := pyRoundInt_nonneg (by positivity)
  positivity

lemma round1_intCast_div_ten (t : ℤ) : round1 ((t : ℚ) / 10) = (t : ℚ) / 10 := by
  have h10 : (10 : ℚ) * ((t : ℚ) / 10) = (t : ℚ) := by ring
  rw [round1, h10, pyRoundInt]
  simp only [ratFloor_eq_intFloor, Int.floor_intCast]
  norm_num

lemma sub_count_mul_nonneg {r p : ℚ} (hp : 0 < p) :
    0 ≤ r - (⌊r / p⌋ : ℚ) * p := by
  have h1 : (⌊r / p⌋ : ℚ) ≤ r / p := Int.floor_le _
  have h2 : (⌊r / p⌋ : ℚ) * p ≤ r / p * p := mul_le_mul_of_nonneg_right h1 hp.le
  rw [div_mul_cancel₀ _ (ne_of_gt hp)] at h2
  linarith

lemma specCount_nonneg {r p : ℚ} (hr : 0 ≤ r) (hp : 0 < p) :
    0 ≤ specCount r p :=
  Int.floor_nonneg.mpr (div_nonneg hr hp.le)

lemma specNext_nonneg {r p : ℚ} (hp : 0 < p) : 0 ≤ specNext r p :=
  round1_nonneg (sub_count_mul_nonneg hp)

/-- Unfolding of the greedy fold of `break_down_difficulty` into the four
specification steps, for a non-negative start value.  The source truncates
with `int(...)`, the spec takes `floor(...)`; they agree because every
intermediate remaining value stays non-negative. -/
lemma breakDownAux_spec (v : ℚ) (h : 0 ≤ v) :
    breakDownAux v =
      ([("hard", specCount v 2), ("medium", specCount (specRem1 v) (3/2)),
        ("easy", specCount (specRem2 v) 1), ("trivial", specCount (specRem3 v) (1/10))],
       specRem4 v) := by
  have h1 : 0 ≤ specRem1 v := specNext_nonneg (by norm_num)
  have h2 : 0 ≤ specRem2 v := specNext_nonneg (by norm_num)
  have h3 : 0 ≤ specRem3 v := specNext_nonneg (by norm_num)
  have e1 : pyInt (v / 2) = specCount v 2 :=
    pyInt_of_nonneg (by positivity)
  have e2 : pyInt (specRem1 v / (3/2)) = specCount (specRem1 v) (3/2) :=
    pyInt_of_nonneg (by positivity)
  have e3 : pyInt (specRem2 v / 1) = specCount (specRem2 v) 1 :=
    pyInt_of_nonneg (by positivity)
  have e4 : pyInt (specRem3 v / (1/10)) = specCount (specRem3 v) (1/10) :=
    pyInt_of_nonneg (by positivity)
  have f1 : round1 (v - (specCount v 2 : ℚ) * 2) = specRem1 v := rfl
  have f2 : round1 (specRem1 v - (specCount (specRem1 v) (3/2) : ℚ) * (3/2)) = specRem2 v := rfl
  have f3 : round1 (specRem2 v - (specCount (specRem2 v) 1 : ℚ) * 1) = specRem3 v := rfl
  have f4 : round1 (specRem3 v - (specCount (specRem3 v) (1/10) : ℚ) * (1/10)) = specRem4 v := rfl
  simp only [breakDownAux, difficulties, List.foldl, List.nil_append, List.cons_append,
    List.append_nil]
  rw [e1, f1, e2, f2, e3, f3, e4, f4]

lemma specCount_eq_of {r p : ℚ} {z : ℤ} (h1 : (z : ℚ) ≤ r / p)
    (h2 : r / p < z + 1) : specCount r p = z :=
  Int.floor_eq_iff.mpr ⟨h1, h2⟩

lemma round1_eq_of {q : ℚ} {t : ℤ} (h : q = (t : ℚ) / 10) : round1 q = q := by
  rw [h, round1_intCast_div_ten]

lemma specCount_elevenHalves_hard : specCount (11/2 : ℚ) 2 = 2 :=
  specCount_eq_of (by norm_num) (by norm_num)

lemma specRem1_elevenHalves : specRem1 (11/2 : ℚ) = 3/2 := by
  have ha : (11/2 : ℚ) - (specCount (11/2 : ℚ) 2 : ℚ) * 2 = 3/2 := by
    rw [specCount_elevenHalves_hard]; push_cast; ring
  rw [specRem1, specNext, ha, round1_eq_of (t := 15) (by norm_num)]

lemma specCount_elevenHalves_medium : specCount (specRem1 (11/2 : ℚ)) (3/2) = 1 := by
  rw [specRem1_elevenHalves]
  exact specCount_eq_of (by norm_num) (by norm_num)

lemma specRem2_elevenHalves : specRem2 (11/2 : ℚ) = 0 := by
  have ha : specRem1 (11/2 : ℚ) - (specCount (specRem1 (11/2 : ℚ)) (3/2) : ℚ) * (3/2) = 0 := by
    rw [specCount_elevenHalves_medium, specRem1_elevenHalves]; push_cast; ring
  rw [specRem2, specNext, ha, round1_eq_of (t := 0) (by norm_num)]

lemma specCount_elevenHalves_easy : specCount (specRem2 (11/2 : ℚ)) 1 = 0 := by
  rw [specRem2_elevenHalves]
  exact specCount_eq_of (by norm_num) (by norm_num)

lemma specRem3_elevenHalves : specRem3 (11/2 : ℚ) = 0 := by
  have ha : specRem2 (11/2 : ℚ) - (specCount (specRem2 (11/2 : ℚ)) 1 : ℚ) * 1 = 0 := by
    rw [specCount_elevenHalves_easy, specRem2_elevenHalves]; push_cast; ring
  rw [specRem3, specNext, ha, round1_eq_of (t := 0) (by norm_num)]

lemma specCount_elevenHalves_trivial : specCount (specRem3 (11/2 : ℚ)) (1/10) = 0 := by
  rw [specRem3_elevenHalves]
  exact specCount_eq_of (by norm_num) (by norm_num)

/-- Concrete evaluation of the decomposer at the spec example 5.5. -/
lemma break_down_elevenHalves :
    break_down_difficulty (11/2 : ℚ) =
      Except.ok [("hard", 2), ("medium", 1), ("easy", 0), ("trivial", 0)] := by
  rw [break_down_difficulty, if_neg (by norm_num),
    breakDownAux_spec _ (by norm_num),
    specCount_elevenHalves_hard, specCount_elevenHalves_medium,
    specCount_elevenHalves_easy, specCount_elevenHalves_trivial]

/-- Claim C1, counterexample: at target 5.5 the result of the decomposer
is exactly the four label-to-count entries; there is no leftover-remainder
component in the returned value (its keys are precisely the four
denomination labels), contrary to the claim that the breakdown carries the
remainder alongside the counts. -/
theorem break_down_result_lacks_remainder :
    ((break_down_difficulty (11/2 : ℚ)).toOption.getD []).map Prod.fst =
      ["hard", "medium", "easy", "trivial"] := by
  rw [break_down_elevenHalves]
  rfl

/-- Claim C1, amended: for every non-negative target the decomposer
returns only the mapping from denomination label to count — the keys are
exactly the four labels and every count is non-negative; the leftover
remainder after applying all denominations is computed internally (and is
non-negative) but is not part of the returned value. -/
theorem break_down_result_counts_only (v : ℚ) (h : 0 ≤ v) :
    break_down_difficulty v = Except.ok (breakDownAux v).1 ∧
    (breakDownAux v).1.map Prod.fst = ["hard", "medium", "easy", "trivial"] ∧
    (∀ e ∈ (breakDownAux v).1, 0 ≤ e.2) ∧
    0 ≤ (breakDownAux v).2 := by
  have h1 : 0 ≤ specRem1 v := specNext_nonneg (by norm_num)
  have h2 : 0 ≤ specRem2 v := specNext_nonneg (by norm_num)
  have h3 : 0 ≤ specRem3 v := specNext_nonneg (by norm_num)
  have hb := breakDownAux_spec v h
  refine ⟨by rw [break_down_difficulty, if_neg (not_lt.mpr h)], ?_, ?_, ?_⟩
  · rw [hb]
    rfl
  · rw [hb]
    intro e he
    fin_cases he
    · exact specCount_nonneg h (by norm_num)
    · exact specCount_nonneg h1 (by norm_num)
    · exact specCount_nonneg h2 (by norm_num)
    · exact specCount_nonneg h3 (by norm_num)
  · rw [hb]
    exact specNext_nonneg (by norm_num)

/-- Witness for the amended claim C1, at target 3. -/
theorem break_down_result_counts_only_witness :
    break_down_difficulty 3 = Except.ok (breakDownAux 3).1 ∧
    (breakDownAux 3).1.map Prod.fst = ["hard", "medium", "easy", "trivial"] ∧
    (∀ e ∈ (breakDownAux 3).1, 0 ≤ e.2) ∧
    0 ≤ (breakDownAux 3).2 :=
  break_down_result_counts_only 3 (by norm_num)

/-- Claim C3: for every non-negative target the decomposer walks the
denomination table in its fixed descending order, recording at each step
`count = floor(remaining / unit_value)` and updating
`remaining = round(remaining - count * unit_value, 1)`; in particular
decompose(5.5) yields hard 2, medium 1, easy 0, trivial 0. -/
theorem break_down_follows_spec_steps (v : ℚ) (h : 0 ≤ v) :
    break_down_difficulty v =
      Except.ok [("hard", specCount v 2), ("medium", specCount (specRem1 v) (3/2)),
        ("easy", specCount (specRem2 v) 1), ("trivial", specCount (specRem3 v) (1/10))] ∧
    break_down_difficulty (11/2 : ℚ) =
      Except.ok [("hard", 2), ("medium", 1), ("easy", 0), ("trivial", 0)] := by
  refine ⟨?_, break_down_elevenHalves⟩
  rw [break_down_difficulty, if_neg (not_lt.mpr h), breakDownAux_spec v h]

/-- Witness for claim C3, at target 5.5. -/
theorem break_down_follows_spec_steps_witness :
    break_down_difficulty (11/2 : ℚ) =
      Except.ok [("hard", specCount (11/2) 2), ("medium", specCount (specRem1 (11/2)) (3/2)),
        ("easy", specCount (specRem2 (11/2)) 1), ("trivial", specCount (specRem3 (11/2)) (1/10))] ∧
    break_down_difficulty (11/2 : ℚ) =
      Except.ok [("hard", 2), ("medium", 1), ("easy", 0), ("trivial", 0)] :=
  break_down_follows_spec_steps (11/2) (by norm_num)

/-- Claim C7: the decomposer fails with the invalid-argument error
exactly when the target is negative, and returns a breakdown without
error on every non-negative target. -/
theorem break_down_invalid_iff_negative (v : ℚ) :
    (break_down_difficulty v =
        Except.error (PyErr.valueError "Value must be non-negative") ↔ v < 0) ∧
    (0 ≤ v → break_down_difficulty v = Except.ok (breakDownAux v).1) := by
  constructor
  · constructor
    · intro he
      by_contra hv
      rw [break_down_difficulty, if_neg hv] at he
      exact absurd he (by simp)
    · intro hv
      rw [break_down_difficulty, if_pos hv]
  · intro hv
    rw [break_down_difficulty, if_neg (not_lt.mpr hv)]

/-- Witness for claim C7, at targets 4 and -1. -/
theorem break_down_invalid_iff_negative_witness :
    break_down_difficulty 4 = Except.ok (breakDownAux 4).1 ∧
    break_down_difficulty (-1) =
      Except.error (PyErr.valueError "Value must be non-negative") :=
  ⟨(break_down_invalid_iff_negative 4).2 (by norm_num),
   (break_down_invalid_iff_negative (-1)).1.mpr (by norm_num)⟩

/-- User stats extracted from the profile data by `log_story_points`
(habitica.py, lines 356-359): experience, gold and level. -/
structure Stats where
  exp : ℚ
  gp : ℚ
  lvl : ℚ
deriving DecidableEq

/-- Outcome of one `get_profile` call (habitica.py, lines 75-92): on
HTTP success the parsed JSON body (which on API success carries `data`);
on a request exception the dict `{success: False, error: str(e)}`,
which has no `data` key. -/
structure ProfileResp where
  success : Bool
  data : Option Stats
  error : Option String
deriving DecidableEq

/-- Outcome of one `press_plus` scoring call as consumed by
`log_story_points`: the task id it targeted and whether it succeeded. -/
structure ScoreRes where
  task_id : String
  success : Bool
deriving DecidableEq

/-- The two shapes of dict `log_story_points` can return: the early
failure dict (lines 351-354 and 392-395) and the full result dict
(lines 408-415). -/
inductive LogResult : Type
  | fetchFailure (error : String)
  | completed (success : Bool) (story_points : ℚ) (breakdown : List (String × ℤ))
      (results : List ScoreRes) (successful_scores : ℕ) (stat_deltas : Stats)
deriving DecidableEq

/-- Embedding of the subscript `response[{data}]` (habitica.py, lines
349 and 390): raises `KeyError` when the key is absent. -/
def getDataItem (r : ProfileResp) : Except PyErr Stats :=
  match r.data with
  | some d => Except.ok d
  | none => Except.error (PyErr.keyError "data")

/-- The inner loop `for i in range(count)` of `log_story_points`
(habitica.py, lines 376-381): issues one scoring call per unit, appending
each result; the second component threads the index of the next call so
that call outcomes can be supplied by a sequence. -/
def scoreLoopInner (name : String) (score : ℕ → Bool) (n : ℕ)
    (acc : List ScoreRes × ℕ) : List ScoreRes × ℕ :=
  (List.range n).foldl (fun a2 _ => (a2.1 ++ [⟨name, score a2.2⟩], a2.2 + 1)) acc

/-- The batch loop of `log_story_points` (habitica.py, lines 370-381):
for each difficulty with nonzero count, score `{difficulty}-doot` once
per unit, accumulating all results. -/
def runBatch (counts : List (String × ℤ)) (score : ℕ → Bool) : List ScoreRes × ℕ :=
  counts.foldl
    (fun acc dc =>
      if dc.2 = 0 then acc
      else scoreLoopInner (dc.1 ++ "-doot") score dc.2.toNat acc)
    ([], 0)

/-- Embedding of `HabiticaAPI.log_story_points` (habitica.py, lines
333-415).  The two profile fetches and the per-call scoring outcomes are
the collaborator inputs.  Mirrors the source order: fetch profile, read
`response[{data}]`, check `success`, break down the story points, run the
batch, fetch the profile again, read `data` and check `success` again,
then assemble the result dict with `success = successful_scores ==
len(results)` and the stat deltas. -/
def log_story_points (story_points : ℚ) (p1 p2 : ProfileResp)
    (score : ℕ → Bool) : Except PyErr LogResult := do
  let data ← getDataItem p1
  if !p1.success then
    return LogResult.fetchFailure (p1.error.getD "Unknown error")
  let starting := data
  let difficulties ← break_down_difficulty story_points
  let results := (runBatch difficulties score).1
  let successful := (results.filter (fun r => r.success)).length
  let data2 ← getDataItem p2
  if !p2.success then
    return LogResult.fetchFailure (p2.error.getD "Unknown error")
  return LogResult.completed (successful == results.length) story_points difficulties
    results successful
    ⟨data2.exp - starting.exp, data2.gp - starting.gp, data2.lvl - starting.lvl⟩

/-- Claim C2: when the initial profile fetch fails, `get_profile` returns
a dict without a `data` key, and `log_story_points` reads
`response[`data`]` before its success check (habitica.py, line 349), so
the call raises `KeyError` instead of returning a failure result dict.
This exhibits the divergence from the claimed always-degrade behaviour. -/
theorem log_story_points_raises_on_failed_fetch (sp : ℚ) (err : Option String)
    (p2 : ProfileResp) (score : ℕ → Bool) :
    log_story_points sp ⟨false, none, err⟩ p2 score =
      Except.error (PyErr.keyError "data") := rfl

/-- Total number of units over all denominations of a breakdown. -/
def totalUnits (counts : List (String × ℤ)) : ℕ :=
  (counts.map (fun dc => dc.2.toNat)).sum

/-- The sequence of scoring calls the batch loop issues, starting from
call index `k`: for each table entry in order, one call per unit. -/
def batchCalls (score : ℕ → Bool) : List (String × ℤ) → ℕ → List ScoreRes
  | [], _ => []
  | dc :: t, k =>
    (List.range dc.2.toNat).map (fun i => ⟨dc.1 ++ "-doot", score (k + i)⟩) ++
      batchCalls score t (k + dc.2.toNat)

lemma scoreLoopInner_eq (name : String) (score : ℕ → Bool) (n : ℕ)
    (acc : List ScoreRes) (k : ℕ) :
    scoreLoopInner name score n (acc, k) =
      (acc ++ (List.range n).map (fun i => ⟨name, score (k + i)⟩), k + n) := by
  induction n with
  | zero => simp [scoreLoopInner]
  | succ m ih =>
    rw [scoreLoopInner, List.range_succ, List.foldl_append]
    rw [scoreLoopInner] at ih
    rw [ih]
    simp [List.range_succ, Nat.add_assoc]

lemma runBatch_foldl (score : ℕ → Bool) (counts : List (String × ℤ)) :
    ∀ (acc : List ScoreRes) (k : ℕ),
      counts.foldl
        (fun acc dc =>
          if dc.2 = 0 then acc
          else scoreLoopInner (dc.1 ++ "-doot") score dc.2.toNat acc)
        (acc, k) =
      (acc ++ batchCalls score counts k, k + totalUnits counts) := by
  induction counts with
  | nil => intro acc k; simp [batchCalls, totalUnits]
  | cons dc t ih =>
    intro acc k
    rw [List.foldl_cons]
    by_cases h0 : dc.2 = 0
    · rw [if_pos h0, ih]
      simp [batchCalls, totalUnits, h0]
    · rw [if_neg h0, scoreLoopInner_eq, ih]
      simp [batchCalls, totalUnits, List.append_assoc, Nat.add_assoc]

lemma runBatch_eq (counts : List (String × ℤ)) (score : ℕ → Bool) :
    runBatch counts score = (batchCalls score counts 0, totalUnits counts) := by
  rw [runBatch, runBatch_foldl]
  simp

lemma batchCalls_taskIds (score : ℕ → Bool) (counts : List (String × ℤ)) :
    ∀ k, (batchCalls score counts k).map (fun r => r.task_id) =
      counts.flatMap (fun dc => List.replicate dc.2.toNat (dc.1 ++ "-doot")) := by
  induction counts with
  | nil => intro k; simp [batchCalls]
  | cons dc t ih =>
    intro k
    rw [batchCalls, List.flatMap_cons, List.map_append, ih, List.map_map]
    congr 1
    have : ((fun r : ScoreRes => r.task_id) ∘ fun i => (⟨dc.1 ++ "-doot", score (k + i)⟩ : ScoreRes)) =
        fun _ => dc.1 ++ "-doot" := rfl
    rw [this, List.map_const', List.length_range]

lemma batchCalls_successes (score : ℕ → Bool) (counts : List (String × ℤ)) :
    ∀ k, (batchCalls score counts k).map (fun r => r.success) =
      (List.range (totalUnits counts)).map (fun i => score (k + i)) := by
  induction counts with
  | nil => intro k; simp [batchCalls, totalUnits]
  | cons dc t ih =>
    intro k
    rw [batchCalls, List.map_append, ih, List.map_map]
    have h1 : totalUnits (dc :: t) = dc.2.toNat + totalUnits t := by
      simp [totalUnits]
    rw [h1, List.range_add, List.map_append, List.map_map]
    congr 1
    simp [Function.comp_def, Nat.add_assoc]

lemma filter_length_eq_iff {α : Type} (p : α → Bool) (l : List α) :
    ((l.filter p).length = l.length) ↔ ∀ a ∈ l, p a = true := by
  rw [← List.countP_eq_length_filter, List.countP_eq_length]

/-- Evaluation of `log_story_points` on the success path: both profile
fetches succeed with data, so the function returns the assembled result
dict built from the batch outcomes. -/
lemma log_story_points_ok (sp : ℚ) (st1 st2 : Stats) (e1 e2 : Option String)
    (score : ℕ → Bool) (counts : List (String × ℤ))
    (h : break_down_difficulty sp = Except.ok counts) :
    log_story_points sp ⟨true, some st1, e1⟩ ⟨true, some st2, e2⟩ score =
      Except.ok (LogResult.completed
        (((runBatch counts score).1.filter (fun r => r.success)).length ==
          (runBatch counts score).1.length)
        sp counts (runBatch counts score).1
        (((runBatch counts score).1.filter (fun r => r.success)).length)
        ⟨st2.exp - st1.exp, st2.gp - st1.gp, st2.lvl - st1.lvl⟩) := by
  simp [log_story_points, getDataItem, h, Bind.bind, Except.bind, Pure.pure, Except.pure]

lemma specCount_three_hard : specCount (3 : ℚ) 2 = 1 :=
  specCount_eq_of (by norm_num) (by norm_num)

lemma specRem1_three : specRem1 (3 : ℚ) = 1 := by
  have ha : (3 : ℚ) - (specCount (3 : ℚ) 2 : ℚ) * 2 = 1 := by
    rw [specCount_three_hard]; push_cast; ring
  rw [specRem1, specNext, ha, round1_eq_of (t := 10) (by norm_num)]

lemma specCount_three_medium : specCount (specRem1 (3 : ℚ)) (3/2) = 0 := by
  rw [specRem1_three]
  exact specCount_eq_of (by norm_num) (by norm_num)

lemma specRem2_three : specRem2 (3 : ℚ) = 1 := by
  have ha : specRem1 (3 : ℚ) - (specCount (specRem1 (3 : ℚ)) (3/2) : ℚ) * (3/2) = 1 := by
    rw [specCount_three_medium, specRem1_three]; push_cast; ring
  rw [specRem2, specNext, ha, round1_eq_of (t := 10) (by norm_num)]

lemma specCount_three_easy : specCount (specRem2 (3 : ℚ)) 1 = 1 := by
  rw [specRem2_three]
  exact specCount_eq_of (by norm_num) (by norm_num)

lemma specRem3_three : specRem3 (3 : ℚ) = 0 := by
  have ha : specRem2 (3 : ℚ) - (specCount (specRem2 (3 : ℚ)) 1 : ℚ) * 1 = 0 := by
    rw [specCount_three_easy, specRem2_three]; push_cast; ring
  rw [specRem3, specNext, ha, round1_eq_of (t := 0) (by norm_num)]

lemma specCount_three_trivial : specCount (specRem3 (3 : ℚ)) (1/10) = 0 := by
  rw [specRem3_three]
  exact specCount_eq_of (by norm_num) (by norm_num)

/-- Concrete evaluation of the decomposer at the spec example 3.0. -/
lemma break_down_three :
    break_down_difficulty (3 : ℚ) =
      Except.ok [("hard", 1), ("medium", 0), ("easy", 1), ("trivial", 0)] := by
  rw [break_down_difficulty, if_neg (by norm_num), breakDownAux_spec _ (by norm_num),
    specCount_three_hard, specCount_three_medium, specCount_three_easy,
    specCount_three_trivial]

/-- Claim C8: for every decomposition the batch consumer issues exactly
one scoring call per unit of each denomination count, sequentially in
denomination-table order; the k-th issued call receives the k-th outcome
regardless of earlier failures (no short-circuit); and `log_story_points`
reports overall success exactly when every issued call reported success
(vacuously when no call was issued). -/
theorem log_story_points_batch_consumer (sp : ℚ) (st1 st2 : Stats)
    (e1 e2 : Option String) (score : ℕ → Bool) (counts : List (String × ℤ))
    (h : break_down_difficulty sp = Except.ok counts) :
    (runBatch counts score).1.map (fun r => r.task_id) =
      counts.flatMap (fun dc => List.replicate dc.2.toNat (dc.1 ++ "-doot")) ∧
    (runBatch counts score).1.map (fun r => r.success) =
      (List.range (totalUnits counts)).map score ∧
    log_story_points sp ⟨true, some st1, e1⟩ ⟨true, some st2, e2⟩ score =
      Except.ok (LogResult.completed
        (((runBatch counts score).1.filter (fun r => r.success)).length ==
          (runBatch counts score).1.length)
        sp counts (runBatch counts score).1
        (((runBatch counts score).1.filter (fun r => r.success)).length)
        ⟨st2.exp - st1.exp, st2.gp - st1.gp, st2.lvl - st1.lvl⟩) ∧
    ((((runBatch counts score).1.filter (fun r => r.success)).length ==
        (runBatch counts score).1.length) = true ↔
      ∀ r ∈ (runBatch counts score).1, r.success = true) := by
  refine ⟨?_, ?_, log_story_points_ok sp st1 st2 e1 e2 score counts h, ?_⟩
  · rw [runBatch_eq]
    exact batchCalls_taskIds score counts 0
  · rw [runBatch_eq]
    have := batchCalls_successes score counts 0
    simpa using this
  · rw [beq_iff_eq, filter_length_eq_iff]

/-- Witness for claim C8: story points 3 decompose into one hard and one
easy unit; with the first call succeeding and the second failing, both
calls are still issued and the overall result is reported unsuccessful. -/
theorem log_story_points_batch_consumer_witness :
    let counts : List (String × ℤ) := [("hard", 1), ("medium", 0), ("easy", 1), ("trivial", 0)]
    let score : ℕ → Bool := fun k => k == 0
    (runBatch counts score).1.map (fun r => r.task_id) =
      counts.flatMap (fun dc => List.replicate dc.2.toNat (dc.1 ++ "-doot")) ∧
    (runBatch counts score).1.map (fun r => r.success) =
      (List.range (totalUnits counts)).map score ∧
    log_story_points 3 ⟨true, some ⟨0, 0, 0⟩, none⟩ ⟨true, some ⟨1, 2, 3⟩, none⟩ score =
      Except.ok (LogResult.completed
        (((runBatch counts score).1.filter (fun r => r.success)).length ==
          (runBatch counts score).1.length)
        3 counts (runBatch counts score).1
        (((runBatch counts score).1.filter (fun r => r.success)).length)
        ⟨(1 : ℚ) - 0, (2 : ℚ) - 0, (3 : ℚ) - 0⟩) ∧
    ((((runBatch counts score).1.filter (fun r => r.success)).length ==
        (runBatch counts score).1.length) = true ↔
      ∀ r ∈ (runBatch counts score).1, r.success = true) :=
  log_story_points_batch_consumer 3 ⟨0, 0, 0⟩ ⟨1, 2, 3⟩ none none
    (fun k => k == 0) [("hard", 1), ("medium", 0), ("easy", 1), ("trivial", 0)]
    break_down_three

/-- Scalar field values carried by a card dict in the list-monitoring
variant: strings, nullable strings (the due date), numbers (the
position), and booleans (the closed flag). -/
inductive Val : Type
  | s (x : String)
  | o (x : Option String)
  | n (x : ℚ)
  | b (x : Bool)
deriving DecidableEq

/-- Python dict lookup on an association list: the value at the first
binding of the key, if any (`d.get(k)` / `d[k]`). -/
def dget {α : Type} : List (String × α) → String → Option α
  | [], _ => none
  | (k, v) :: t, f => if k = f then some v else dget t f

/-- A card of the list-monitoring variant, as the Python dict fetched by
`TrelloListMonitor.get_cards` (trello.py, line 168 requests the fields
id, name, desc, due, dateLastActivity, pos, closed); kept as a generic
field map because `compare_cards` iterates `card.items()` generically. -/
abbrev LCard : Type := List (String × Val)

/-- A snapshot of the list-monitoring variant: card id to card. -/
abbrev LSnap : Type := List (String × LCard)

/-- Python dict equality for field maps: same keys with equal values
(order-insensitive), matching `old_relevant != new_relevant` on dicts. -/
def dictEq (a b : LCard) : Bool :=
  a.all (fun kv => dget b kv.1 == some kv.2) && b.all (fun kv => dget a kv.1 == some kv.2)

/-- The dict comprehension of `TrelloListMonitor.compare_cards`
(trello.py, lines 202-203): every field except `dateLastActivity`. -/
def relevantL (c : LCard) : LCard :=
  c.filter (fun kv => kv.1 != "dateLastActivity")

/-- The whitelist of comparable fields of `_get_field_changes`
(trello.py line 231 and trello_board.py line 224). -/
def fieldWhitelist : List String := ["name", "desc", "due", "pos", "closed"]

/-- Embedding of `TrelloListMonitor._get_field_changes` (trello.py,
lines 219-237): the whitelisted fields whose values differ, each with
its old and new value. -/
def get_field_changes_list (oc nc : LCard) : List (String × Option Val × Option Val) :=
  fieldWhitelist.filterMap
    (fun f => if dget oc f = dget nc f then none else some (f, dget oc f, dget nc f))

/-- One entry of the `modified` list of the list-monitoring differ
(trello.py, lines 206-211). -/
structure LModEntry where
  id : String
  old : LCard
  new : LCard
  changes : List (String × Option Val × Option Val)
deriving DecidableEq

/-- The diff returned by `TrelloListMonitor.compare_cards`
(trello.py, lines 213-217). -/
structure LDiff where
  added : List LCard
  removed : List LCard
  modified : List LModEntry
deriving DecidableEq

/-- The body of the common-id loop of `TrelloListMonitor.compare_cards`
(trello.py, lines 197-211): for one common id, the modified entry it
contributes, if any. -/
def modifiedEntryL (old_cards new_cards : LSnap) (k : String) : Option LModEntry :=
  match dget old_cards k, dget new_cards k with
  | some oc, some nc =>
    if dictEq (relevantL oc) (relevantL nc) then none
    else some ⟨k, oc, nc, get_field_changes_list oc nc⟩
  | _, _ => none

/-- Embedding of `TrelloListMonitor.compare_cards` (trello.py, lines
177-217): set differences on ids give `added` and `removed`; for each
common id, the cards are compared with `dateLastActivity` excluded and a
modified entry carries the field-level change map. -/
def compare_cards_list (old_cards new_cards : LSnap) : LDiff :=
  let old_ids := old_cards.map Prod.fst
  let new_ids := new_cards.map Prod.fst
  let added := new_ids.filter (fun k => !old_ids.contains k)
  let removed := old_ids.filter (fun k => !new_ids.contains k)
  let common := old_ids.filter (fun k => new_ids.contains k)
  { added := added.filterMap (fun k => dget new_cards k),
    removed := removed.filterMap (fun k => dget old_cards k),
    modified := common.filterMap (modifiedEntryL old_cards new_cards) }

/-- A card of the board-monitoring variant, with exactly the fields
`TrelloBoardMonitor.get_cards` puts in each card dict (trello_board.py,
lines 130-161: the eight requested fields plus the derived `list_id` and
`list_name`). -/
structure BCard where
  id : String
  name : String
  desc : String
  due : Option String
  dateLastActivity : String
  pos : ℚ
  closed : Bool
  idList : String
  list_id : String
  list_name : String
deriving DecidableEq

/-- The dict comprehension of `TrelloBoardMonitor.compare_cards`
(trello_board.py, lines 201-204): every field except `dateLastActivity`,
`idList`, `list_id` and `list_name`. -/
def relevantB (c : BCard) : String × String × String × Option String × ℚ × Bool :=
  (c.id, c.name, c.desc, c.due, c.pos, c.closed)

/-- Python `card.get(field)` on a board card. -/
def bget (c : BCard) (f : String) : Option Val :=
  if f = "id" then some (Val.s c.id)
  else if f = "name" then some (Val.s c.name)
  else if f = "desc" then some (Val.s c.desc)
  else if f = "due" then some (Val.o c.due)
  else if f = "dateLastActivity" then some (Val.s c.dateLastActivity)
  else if f = "pos" then some (Val.n c.pos)
  else if f = "closed" then some (Val.b c.closed)
  else if f = "idList" then some (Val.s c.idList)
  else if f = "list_id" then some (Val.s c.list_id)
  else if f = "list_name" then some (Val.s c.list_name)
  else none

/-- Embedding of `TrelloBoardMonitor._get_field_changes`
(trello_board.py, lines 221-230). -/
def get_field_changes_board (oc nc : BCard) : List (String × Option Val × Option Val) :=
  fieldWhitelist.filterMap
    (fun f => if bget oc f = bget nc f then none else some (f, bget oc f, bget nc f))

/-- One entry of the `modified` list of the board-monitoring differ
(trello_board.py, lines 207-212). -/
structure BModEntry where
  id : String
  old : BCard
  new : BCard
  changes : List (String × Option Val × Option Val)
deriving DecidableEq

/-- One entry of the `moved` list (trello_board.py, lines 191-198). -/
structure BMovedEntry where
  id : String
  name : String
  from_list : String
  to_list : String
  old_card : BCard
  new_card : BCard
deriving DecidableEq

/-- The diff returned by `TrelloBoardMonitor.compare_cards`
(trello_board.py, lines 214-219). -/
structure BDiff where
  added : List BCard
  removed : List BCard
  modified : List BModEntry
  moved : List BMovedEntry
deriving DecidableEq

/-- The moved check of the common-id loop of
`TrelloBoardMonitor.compare_cards` (trello_board.py, lines 190-198):
for one common id, the moved entry it contributes, if any. -/
def movedEntryB (old_cards new_cards : List (String × BCard)) (k : String) :
    Option BMovedEntry :=
  match dget old_cards k, dget new_cards k with
  | some oc, some nc =>
    if oc.idList = nc.idList then none
    else some ⟨k, nc.name, oc.list_name, nc.list_name, oc, nc⟩
  | _, _ => none

/-- The modified check of the common-id loop of
`TrelloBoardMonitor.compare_cards` (trello_board.py, lines 200-212):
for one common id, the modified entry it contributes, if any. -/
def modifiedEntryB (old_cards new_cards : List (String × BCard)) (k : String) :
    Option BModEntry :=
  match dget old_cards k, dget new_cards k with
  | some oc, some nc =>
    if relevantB oc = relevantB nc then none
    else some ⟨k, oc, nc, get_field_changes_board oc nc⟩
  | _, _ => none

/-- Embedding of `TrelloBoardMonitor.compare_cards` (trello_board.py,
lines 163-219): like the list variant, plus a `moved` entry for every
common id whose `idList` changed; the modified comparison excludes
`dateLastActivity`, `idList`, `list_id` and `list_name`.  The moved and
modified checks run independently for each common id. -/
def compare_cards_board (old_cards new_cards : List (String × BCard)) : BDiff :=
  let old_ids := old_cards.map Prod.fst
  let new_ids := new_cards.map Prod.fst
  let added := new_ids.filter (fun k => !old_ids.contains k)
  let removed := old_ids.filter (fun k => !new_ids.contains k)
  let common := old_ids.filter (fun k => new_ids.contains k)
  { added := added.filterMap (fun k => dget new_cards k),
    removed := removed.filterMap (fun k => dget old_cards k),
    modified := common.filterMap (modifiedEntryB old_cards new_cards),
    moved := common.filterMap (movedEntryB old_cards new_cards) }

lemma dget_mem {α : Type} {l : List (String × α)} {f : String} {v : α}
    (h : dget l f = some v) : (f, v) ∈ l := by
  induction l with
  | nil => simp [dget] at h
  | cons kv t ih =>
    obtain ⟨k, w⟩ := kv
    rw [dget] at h
    by_cases hk : k = f
    · rw [if_pos hk] at h
      obtain rfl := Option.some.inj h
      subst hk
      exact List.mem_cons_self _ _
    · rw [if_neg hk] at h
      exact List.mem_cons_of_mem _ (ih h)

lemma dget_mem_keys {α : Type} {l : List (String × α)} {f : String} {v : α}
    (h : dget l f = some v) : f ∈ l.map Prod.fst :=
  List.mem_map.mpr ⟨(f, v), dget_mem h, rfl⟩

lemma dget_isSome_of_mem_keys {α : Type} {l : List (String × α)} {f : String}
    (h : f ∈ l.map Prod.fst) : ∃ v, dget l f = some v := by
  induction l with
  | nil => simp at h
  | cons kv t ih =>
    obtain ⟨k, w⟩ := kv
    by_cases hk : k = f
    · exact ⟨w, by rw [dget, if_pos hk]⟩
    · rw [List.map_cons, List.mem_cons] at h
      rcases h with h | h
      · exact absurd h.symm hk
      · obtain ⟨v, hv⟩ := ih h
        exact ⟨v, by rw [dget, if_neg hk, hv]⟩

lemma dget_of_mem_nodup {α : Type} {l : List (String × α)}
    (hnd : (l.map Prod.fst).Nodup) {f : String} {v : α} (h : (f, v) ∈ l) :
    dget l f = some v := by
  induction l with
  | nil => simp at h
  | cons kv t ih =>
    obtain ⟨k, w⟩ := kv
    rw [List.map_cons, List.nodup_cons] at hnd
    rw [List.mem_cons] at h
    rw [dget]
    rcases h with h | h
    · obtain ⟨rfl, rfl⟩ := Prod.mk.injEq .. ▸ h
      · rw [if_pos rfl]
    · by_cases hk : k = f
      · subst hk
        exact absurd (List.mem_map.mpr ⟨(k, v), h, rfl⟩) hnd.1
      · rw [if_neg hk]
        exact ih hnd.2 h

lemma dget_filter {α : Type} (p : String × α → Bool) {f : String}
    (hf : ∀ v, p (f, v) = true) (l : List (String × α)) :
    dget (l.filter p) f = dget l f := by
  induction l with
  | nil => rfl
  | cons kv t ih =>
    obtain ⟨k, w⟩ := kv
    by_cases hk : k = f
    · subst hk
      rw [List.filter_cons, hf w]
      simp [dget]
    · rw [List.filter_cons]
      cases hp : p (k, w) with
      | true =>
        simp only [dget, if_neg hk]
        exact ih
      | false =>
        rw [dget, if_neg hk]
        exact ih

lemma dictEq_refl {c : LCard} (h : (c.map Prod.fst).Nodup) : dictEq c c = true := by
  rw [dictEq, Bool.and_self]
  rw [List.all_eq_true]
  intro kv hkv
  obtain ⟨k, v⟩ := kv
  rw [beq_iff_eq]
  exact dget_of_mem_nodup h hkv

lemma relevantL_keys_nodup {c : LCard} (h : (c.map Prod.fst).Nodup) :
    ((relevantL c).map Prod.fst).Nodup :=
  h.sublist ((List.filter_sublist c).map Prod.fst)

/-- Claim C6: diffing any snapshot against itself yields empty added,
removed, modified (and moved) sets, in both the list-monitoring and the
board-monitoring variant.  The list variant needs each card to be a
well-formed dict (no duplicate field keys), as every Python dict is. -/
theorem diff_self_empty :
    (∀ S : LSnap, (∀ kv ∈ S, ((kv.2 : LCard).map Prod.fst).Nodup) →
      compare_cards_list S S = ⟨[], [], []⟩) ∧
    (∀ S : List (String × BCard), compare_cards_board S S = ⟨[], [], [], []⟩) := by
  constructor
  · intro S hS
    rw [compare_cards_list, LDiff.mk.injEq]
    have hfil : (S.map Prod.fst).filter (fun k => !(S.map Prod.fst).contains k) = [] :=
      List.filter_eq_nil_iff.mpr (fun a ha => by simp [ha])
    refine ⟨by rw [hfil]; rfl, by rw [hfil]; rfl, ?_⟩
    apply List.filterMap_eq_nil_iff.mpr
    intro k hk
    rw [List.mem_filter] at hk
    obtain ⟨v, hv⟩ := dget_isSome_of_mem_keys hk.1
    have hnd : ((v.map Prod.fst) : List String).Nodup := hS (k, v) (dget_mem hv)
    simp only [modifiedEntryL, hv]
    rw [if_pos (dictEq_refl (relevantL_keys_nodup hnd))]
  · intro S
    rw [compare_cards_board, BDiff.mk.injEq]
    have hfil : (S.map Prod.fst).filter (fun k => !(S.map Prod.fst).contains k) = [] :=
      List.filter_eq_nil_iff.mpr (fun a ha => by simp [ha])
    refine ⟨by rw [hfil]; rfl, by rw [hfil]; rfl, ?_, ?_⟩
    · apply List.filterMap_eq_nil_iff.mpr
      intro k hk
      rw [List.mem_filter] at hk
      obtain ⟨v, hv⟩ := dget_isSome_of_mem_keys hk.1
      simp [modifiedEntryB, hv]
    · apply List.filterMap_eq_nil_iff.mpr
      intro k hk
      rw [List.mem_filter] at hk
      obtain ⟨v, hv⟩ := dget_isSome_of_mem_keys hk.1
      simp [movedEntryB, hv]

/-- Witness for claim C6: a concrete one-card snapshot diffed against
itself, in both variants. -/
theorem diff_self_empty_witness :
    compare_cards_list [("c1", [("name", Val.s "x"), ("pos", Val.n 1)])]
      [("c1", [("name", Val.s "x"), ("pos", Val.n 1)])] = ⟨[], [], []⟩ ∧
    compare_cards_board
      [("c1", ⟨"c1", "x", "", none, "t1", 1, false, "l1", "l1", "Doing"⟩)]
      [("c1", ⟨"c1", "x", "", none, "t1", 1, false, "l1", "l1", "Doing"⟩)] =
      ⟨[], [], [], []⟩ :=
  ⟨diff_self_empty.1 [("c1", [("name", Val.s "x"), ("pos", Val.n 1)])]
      (by intro kv hkv; rw [List.mem_singleton] at hkv; subst hkv; simp),
   diff_self_empty.2 [("c1", ⟨"c1", "x", "", none, "t1", 1, false, "l1", "l1", "Doing"⟩)]⟩

lemma modifiedEntryL_id {old_cards new_cards : LSnap} {k : String} {m : LModEntry}
    (h : modifiedEntryL old_cards new_cards k = some m) : m.id = k := by
  rw [modifiedEntryL] at h
  rcases hdo : dget old_cards k with _ | oc <;> rw [hdo] at h
  · cases h
  rcases hdn : dget new_cards k with _ | nc <;> rw [hdn] at h
  · cases h
  simp only at h
  split_ifs at h
  obtain rfl := Option.some.inj h
  rfl

lemma modifiedEntryB_id {old_cards new_cards : List (String × BCard)} {k : String}
    {m : BModEntry} (h : modifiedEntryB old_cards new_cards k = some m) : m.id = k := by
  rw [modifiedEntryB] at h
  rcases hdo : dget old_cards k with _ | oc <;> rw [hdo] at h
  · cases h
  rcases hdn : dget new_cards k with _ | nc <;> rw [hdn] at h
  · cases h
  simp only at h
  split_ifs at h
  obtain rfl := Option.some.inj h
  rfl

lemma movedEntryB_id {old_cards new_cards : List (String × BCard)} {k : String}
    {m : BMovedEntry} (h : movedEntryB old_cards new_cards k = some m) : m.id = k := by
  rw [movedEntryB] at h
  rcases hdo : dget old_cards k with _ | oc <;> rw [hdo] at h
  · cases h
  rcases hdn : dget new_cards k with _ | nc <;> rw [hdn] at h
  · cases h
  simp only at h
  split_ifs at h
  obtain rfl := Option.some.inj h
  rfl

lemma dictEq_relevant_of_agree {oc nc : LCard}
    (hoc : (oc.map Prod.fst).Nodup) (hnc : (nc.map Prod.fst).Nodup)
    (hagree : ∀ f, f ≠ "dateLastActivity" → dget oc f = dget nc f) :
    dictEq (relevantL oc) (relevantL nc) = true := by
  rw [dictEq, Bool.and_eq_true, List.all_eq_true, List.all_eq_true]
  constructor
  · intro kv hkv
    obtain ⟨k, v⟩ := kv
    have hkmem : (k, v) ∈ oc := List.mem_of_mem_filter hkv
    have hkne : k ≠ "dateLastActivity" := by
      have hp := (List.mem_filter.mp hkv).2
      simpa using hp
    show (dget (relevantL nc) k == some v) = true
    rw [beq_iff_eq, relevantL,
      dget_filter (fun kv => kv.1 != "dateLastActivity") (fun v' => bne_iff_ne.mpr hkne),
      ← hagree k hkne]
    exact dget_of_mem_nodup hoc hkmem
  · intro kv hkv
    obtain ⟨k, v⟩ := kv
    have hkmem : (k, v) ∈ nc := List.mem_of_mem_filter hkv
    have hkne : k ≠ "dateLastActivity" := by
      have hp := (List.mem_filter.mp hkv).2
      simpa using hp
    show (dget (relevantL oc) k == some v) = true
    rw [beq_iff_eq, relevantL,
      dget_filter (fun kv => kv.1 != "dateLastActivity") (fun v' => bne_iff_ne.mpr hkne),
      hagree k hkne]
    exact dget_of_mem_nodup hnc hkmem

/-- Claim C5: for any id present in both snapshots, a difference confined
to the `dateLastActivity` timestamp (all other fields agree) never yields
a modified entry for that id, in the list-monitoring and in the
board-monitoring variant alike. -/
theorem timestamp_only_not_modified :
    (∀ (old_cards new_cards : LSnap) (k : String) (oc nc : LCard),
      dget old_cards k = some oc → dget new_cards k = some nc →
      (oc.map Prod.fst).Nodup → (nc.map Prod.fst).Nodup →
      (∀ f, f ≠ "dateLastActivity" → dget oc f = dget nc f) →
      ∀ m ∈ (compare_cards_list old_cards new_cards).modified, m.id ≠ k) ∧
    (∀ (old_cards new_cards : List (String × BCard)) (k : String) (oc nc : BCard),
      dget old_cards k = some oc → dget new_cards k = some nc →
      oc.id = nc.id → oc.name = nc.name → oc.desc = nc.desc → oc.due = nc.due →
      oc.pos = nc.pos → oc.closed = nc.closed →
      ∀ m ∈ (compare_cards_board old_cards new_cards).modified, m.id ≠ k) := by
  constructor
  · intro old_cards new_cards k oc nc ho hn hoc hnc hagree m hm heq
    simp only [compare_cards_list] at hm
    rw [List.mem_filterMap] at hm
    obtain ⟨k', hk', hmk'⟩ := hm
    have hkk : k' = k := by rw [← modifiedEntryL_id hmk', heq]
    subst hkk
    simp only [modifiedEntryL, ho, hn] at hmk'
    rw [if_pos (dictEq_relevant_of_agree hoc hnc hagree)] at hmk'
    cases hmk'
  · intro old_cards new_cards k oc nc ho hn h1 h2 h3 h4 h5 h6 m hm heq
    simp only [compare_cards_board] at hm
    rw [List.mem_filterMap] at hm
    obtain ⟨k', hk', hmk'⟩ := hm
    have hkk : k' = k := by rw [← modifiedEntryB_id hmk', heq]
    subst hkk
    simp only [modifiedEntryB, ho, hn] at hmk'
    have hrel : relevantB oc = relevantB nc := by
      rw [relevantB, relevantB, h1, h2, h3, h4, h5, h6]
    rw [if_pos hrel] at hmk'
    cases hmk'

/-- Witness for claim C5: one-card snapshots differing only in the
timestamp, in both variants; the resulting diffs contain no modified
entry for the card. -/
theorem timestamp_only_not_modified_witness :
    (∀ m ∈ (compare_cards_list
        [("c1", [("name", Val.s "x"), ("dateLastActivity", Val.s "t1")])]
        [("c1", [("name", Val.s "x"), ("dateLastActivity", Val.s "t2")])]).modified,
      m.id ≠ "c1") ∧
    (∀ m ∈ (compare_cards_board
        [("c1", ⟨"c1", "x", "", none, "t1", 1, false, "l1", "l1", "Doing"⟩)]
        [("c1", ⟨"c1", "x", "", none, "t2", 1, false, "l1", "l1", "Doing"⟩)]).modified,
      m.id ≠ "c1") :=
  ⟨timestamp_only_not_modified.1 _ _ "c1"
      [("name", Val.s "x"), ("dateLastActivity", Val.s "t1")]
      [("name", Val.s "x"), ("dateLastActivity", Val.s "t2")]
      (by simp [dget]) (by simp [dget]) (by simp) (by simp)
      (by
        intro f hf
        simp only [dget]
        split_ifs with h1 h2
        · rfl
        · exact absurd h2.symm hf
        · rfl),
   timestamp_only_not_modified.2 _ _ "c1"
      ⟨"c1", "x", "", none, "t1", 1, false, "l1", "l1", "Doing"⟩
      ⟨"c1", "x", "", none, "t2", 1, false, "l1", "l1", "Doing"⟩
      (by simp [dget]) (by simp [dget]) rfl rfl rfl rfl rfl rfl⟩

lemma filterMap_filter_id {E : Type} (f : String → Option E) (idOf : E → String)
    (hf : ∀ k e, f k = some e → idOf e = k) (k : String) :
    ∀ l : List String,
      (l.filterMap f).filter (fun e => idOf e == k) =
        (l.filter (fun x => x == k)).filterMap f := by
  intro l
  induction l with
  | nil => rfl
  | cons x t ih =>
    rw [List.filter_cons]
    cases hfx : f x with
    | none =>
      rw [List.filterMap_cons_none hfx]
      by_cases hxk : x = k
      · rw [if_pos (beq_iff_eq.mpr hxk), List.filterMap_cons_none hfx]
        exact ih
      · rw [if_neg (fun hc => hxk (beq_iff_eq.mp hc))]
        exact ih
    | some e =>
      rw [List.filterMap_cons_some hfx, List.filter_cons]
      by_cases hxk : x = k
      · rw [if_pos (beq_iff_eq.mpr ((hf x e hfx).trans hxk)),
          if_pos (beq_iff_eq.mpr hxk), List.filterMap_cons_some hfx, ih]
      · rw [if_neg (fun hc => hxk ((hf x e hfx).symm.trans (beq_iff_eq.mp hc))),
          if_neg (fun hc => hxk (beq_iff_eq.mp hc))]
        exact ih

lemma nodup_filter_beq {l : List String} (h : l.Nodup) {k : String} (hk : k ∈ l) :
    l.filter (fun x => x == k) = [k] := by
  induction l with
  | nil => simp at hk
  | cons x t ih =>
    rw [List.nodup_cons] at h
    rw [List.filter_cons]
    by_cases hxk : x = k
    · subst hxk
      rw [if_pos (beq_iff_eq.mpr rfl)]
      have hnil : t.filter (fun y => y == x) = [] :=
        List.filter_eq_nil_iff.mpr (fun a ha hc => h.1 (beq_iff_eq.mp hc ▸ ha))
      rw [hnil]
    · rw [if_neg (fun hc => hxk (beq_iff_eq.mp hc))]
      rcases List.mem_cons.mp hk with h' | h'
      · exact absurd h'.symm hxk
      · exact ih h.2 h'

lemma dictEq_dget {a b : LCard} (h : dictEq a b = true) (k : String) :
    dget a k = dget b k := by
  rw [dictEq, Bool.and_eq_true, List.all_eq_true, List.all_eq_true] at h
  cases hda : dget a k with
  | some v =>
    have hb := beq_iff_eq.mp (h.1 ⟨k, v⟩ (dget_mem hda))
    rw [hb]
  | none =>
    cases hdb : dget b k with
    | none => rfl
    | some w =>
      have ha := beq_iff_eq.mp (h.2 ⟨k, w⟩ (dget_mem hdb))
      rw [hda] at ha
      cases ha

/-- Claim C4: in the board-monitoring variant, for an id present in both
snapshots whose container list id changed while none of the whitelisted
fields (and the stable record id) changed, the diff contains exactly one
moved entry for that id and no modified entry for it; the moved check is
independent of the modified check. -/
theorem container_only_change_moved_once (old_cards new_cards : List (String × BCard))
    (k : String) (oc nc : BCard)
    (hnd : (old_cards.map Prod.fst).Nodup)
    (ho : dget old_cards k = some oc) (hn : dget new_cards k = some nc)
    (hid : oc.id = nc.id) (hname : oc.name = nc.name) (hdesc : oc.desc = nc.desc)
    (hdue : oc.due = nc.due) (hpos : oc.pos = nc.pos) (hclosed : oc.closed = nc.closed)
    (hmove : oc.idList ≠ nc.idList) :
    (compare_cards_board old_cards new_cards).moved.filter (fun e => e.id == k) =
      [⟨k, nc.name, oc.list_name, nc.list_name, oc, nc⟩] ∧
    (compare_cards_board old_cards new_cards).modified.filter (fun e => e.id == k) = [] := by
  have hkc : k ∈ (old_cards.map Prod.fst).filter
      (fun x => (new_cards.map Prod.fst).contains x) :=
    List.mem_filter.mpr ⟨dget_mem_keys ho, List.elem_eq_true_of_mem (dget_mem_keys hn)⟩
  have hsingle : ((old_cards.map Prod.fst).filter
      (fun x => (new_cards.map Prod.fst).contains x)).filter (fun x => x == k) = [k] :=
    nodup_filter_beq (hnd.filter _) hkc
  constructor
  · simp only [compare_cards_board]
    rw [filterMap_filter_id (movedEntryB old_cards new_cards) (fun e => e.id)
      (fun k' e h => movedEntryB_id h) k, hsingle, List.filterMap_cons]
    simp only [movedEntryB, ho, hn]
    rw [if_neg hmove]
    rfl
  · simp only [compare_cards_board]
    rw [filterMap_filter_id (modifiedEntryB old_cards new_cards) (fun e => e.id)
      (fun k' e h => modifiedEntryB_id h) k, hsingle, List.filterMap_cons]
    have hrel : relevantB oc = relevantB nc := by
      rw [relevantB, relevantB, hid, hname, hdesc, hdue, hpos, hclosed]
    simp only [modifiedEntryB, ho, hn]
    rw [if_pos hrel]
    rfl

/-- Witness for claim C4: a single card moved from list l1 to list l2
with every whitelisted field unchanged; the board diff has exactly the
one moved entry for it and no modified entry. -/
theorem container_only_change_moved_once_witness :
    (compare_cards_board
        [("c1", ⟨"c1", "x", "", none, "t1", 1, false, "l1", "l1", "Doing"⟩)]
        [("c1", ⟨"c1", "x", "", none, "t2", 1, false, "l2", "l2", "Done"⟩)]).moved.filter
      (fun e => e.id == "c1") =
      [⟨"c1", "x", "Doing", "Done",
        ⟨"c1", "x", "", none, "t1", 1, false, "l1", "l1", "Doing"⟩,
        ⟨"c1", "x", "", none, "t2", 1, false, "l2", "l2", "Done"⟩⟩] ∧
    (compare_cards_board
        [("c1", ⟨"c1", "x", "", none, "t1", 1, false, "l1", "l1", "Doing"⟩)]
        [("c1", ⟨"c1", "x", "", none, "t2", 1, false, "l2", "l2", "Done"⟩)]).modified.filter
      (fun e => e.id == "c1") = [] :=
  container_only_change_moved_once _ _ "c1"
    ⟨"c1", "x", "", none, "t1", 1, false, "l1", "l1", "Doing"⟩
    ⟨"c1", "x", "", none, "t2", 1, false, "l2", "l2", "Done"⟩
    (by simp) (by simp [dget]) (by simp [dget]) rfl rfl rfl rfl rfl rfl
    (by simp)

/-- Claim C10: in the list-monitoring differ, modification is detected on
all fields except the timestamp, while the emitted change map covers only
the five whitelisted fields; a difference confined to a non-whitelisted,
non-timestamp field therefore produces exactly one modified entry whose
change map is empty. -/
theorem nonwhitelisted_change_modified_empty_changes
    (old_cards new_cards : LSnap) (k : String) (oc nc : LCard) (f0 : String)
    (hnd : (old_cards.map Prod.fst).Nodup)
    (ho : dget old_cards k = some oc) (hn : dget new_cards k = some nc)
    (hf0ts : f0 ≠ "dateLastActivity") (hf0wl : f0 ∉ fieldWhitelist)
    (hdiff : dget oc f0 ≠ dget nc f0)
    (hagree : ∀ f, f ≠ f0 → dget oc f = dget nc f) :
    (compare_cards_list old_cards new_cards).modified.filter (fun e => e.id == k) =
      [⟨k, oc, nc, []⟩] := by
  have hkc : k ∈ (old_cards.map Prod.fst).filter
      (fun x => (new_cards.map Prod.fst).contains x) :=
    List.mem_filter.mpr ⟨dget_mem_keys ho, List.elem_eq_true_of_mem (dget_mem_keys hn)⟩
  have hsingle := nodup_filter_beq (hnd.filter _) hkc
  have hdict : dictEq (relevantL oc) (relevantL nc) = false := by
    by_contra hcon
    rw [Bool.not_eq_false] at hcon
    have hde := dictEq_dget hcon f0
    rw [relevantL,
      dget_filter (fun kv => kv.1 != "dateLastActivity") (fun v' => bne_iff_ne.mpr hf0ts),
      relevantL,
      dget_filter (fun kv => kv.1 != "dateLastActivity") (fun v' => bne_iff_ne.mpr hf0ts)]
      at hde
    exact hdiff hde
  have hchanges : get_field_changes_list oc nc = [] := by
    rw [get_field_changes_list]
    apply List.filterMap_eq_nil_iff.mpr
    intro f hf
    have hne : f ≠ f0 := fun h => hf0wl (h ▸ hf)
    rw [if_pos (hagree f hne)]
  have hmod : modifiedEntryL old_cards new_cards k = some ⟨k, oc, nc, []⟩ := by
    simp only [modifiedEntryL, ho, hn]
    rw [if_neg (by simp [hdict]), hchanges]
  simp only [compare_cards_list]
  rw [filterMap_filter_id (modifiedEntryL old_cards new_cards) (fun e => e.id)
    (fun k' e h => modifiedEntryL_id h) k, hsingle,
    List.filterMap_cons_some hmod, List.filterMap_nil]

/-- Witness for claim C10: cards agreeing on every field except an extra
non-whitelisted field `badge`; the diff has exactly one modified entry
for the card and its change map is empty. -/
theorem nonwhitelisted_change_modified_empty_changes_witness :
    (compare_cards_list
        [("c1", [("name", Val.s "x"), ("badge", Val.s "a")])]
        [("c1", [("name", Val.s "x"), ("badge", Val.s "b")])]).modified.filter
      (fun e => e.id == "c1") =
      [⟨"c1", [("name", Val.s "x"), ("badge", Val.s "a")],
        [("name", Val.s "x"), ("badge", Val.s "b")], []⟩] :=
  nonwhitelisted_change_modified_empty_changes _ _ "c1"
    [("name", Val.s "x"), ("badge", Val.s "a")]
    [("name", Val.s "x"), ("badge", Val.s "b")] "badge"
    (by simp) (by simp [dget]) (by simp [dget])
    (by simp) (by simp [fieldWhitelist]) (by simp [dget])
    (by
      intro f hf
      simp only [dget]
      split_ifs with h1 h2
      · rfl
      · exact absurd h2.symm hf
      · rfl)

/-- The `any(diff.values())` check of `TrelloListMonitor.monitor`
(trello.py, line 311): true when some diff list is nonempty. -/
def hasChangesL (d : LDiff) : Bool :=
  !d.added.isEmpty || !d.removed.isEmpty || !d.modified.isEmpty

/-- The `any(diff.values())` check of `TrelloBoardMonitor.monitor`
(trello_board.py, line 307). -/
def hasChangesB (d : BDiff) : Bool :=
  !d.added.isEmpty || !d.removed.isEmpty || !d.modified.isEmpty || !d.moved.isEmpty

/-- The polling loop shared by `TrelloListMonitor.monitor` (trello.py,
lines 297-329) and `TrelloBoardMonitor.monitor` (trello_board.py, lines
293-325), run for a bounded number of rounds from a baseline snapshot.
Each round fetches a snapshot: on a fetch exception the round is
swallowed (the baseline and the log of reaction-callback invocations are
left untouched); on success the diff against the baseline is computed,
the callback fires when the diff is nonempty, and the new snapshot
becomes the baseline.  Returns the final baseline and the list of diffs
passed to the callback. -/
def monitorRun {S D : Type} (cmp : S → S → D) (hasCh : D → Bool)
    (fetch : ℕ → Except String S) (init : S) : ℕ → S × List D
  | 0 => (init, [])
  | n + 1 =>
    let p := monitorRun cmp hasCh fetch init n
    match fetch n with
    | Except.error _ => p
    | Except.ok cur =>
      let d := cmp p.1 cur
      (cur, p.2 ++ if hasCh d then [d] else [])

/-- The list-monitoring polling loop. -/
def listMonitorRun : (ℕ → Except String LSnap) → LSnap → ℕ → LSnap × List LDiff :=
  monitorRun compare_cards_list hasChangesL

/-- The board-monitoring polling loop. -/
def boardMonitorRun :
    (ℕ → Except String (List (String × BCard))) → List (String × BCard) → ℕ →
      List (String × BCard) × List BDiff :=
  monitorRun compare_cards_board hasChangesB

/-- Claim C9: a polling round whose fetch fails is swallowed: the
reaction callback is not invoked in that round and the baseline for the
next round is unchanged (the run state after round n equals the state
before it), so a failed fetch never reports changes by itself; polling
still performs every remaining round up to the iteration limit, and in
particular a run whose fetches all fail ends with the initial baseline
and no callback invocation at all.  Both monitor variants. -/
theorem failed_fetch_round_swallowed :
    (∀ (fetch : ℕ → Except String LSnap) (init : LSnap) (n : ℕ) (e : String),
      fetch n = Except.error e →
        listMonitorRun fetch init (n + 1) = listMonitorRun fetch init n) ∧
    (∀ (fetch : ℕ → Except String LSnap) (init : LSnap) (n : ℕ),
      (∀ i, i < n → ∃ e, fetch i = Except.error e) →
        listMonitorRun fetch init n = (init, [])) ∧
    (∀ (fetch : ℕ → Except String (List (String × BCard)))
      (init : List (String × BCard)) (n : ℕ) (e : String),
      fetch n = Except.error e →
        boardMonitorRun fetch init (n + 1) = boardMonitorRun fetch init n) ∧
    (∀ (fetch : ℕ → Except String (List (String × BCard)))
      (init : List (String × BCard)) (n : ℕ),
      (∀ i, i < n → ∃ e, fetch i = Except.error e) →
        boardMonitorRun fetch init n = (init, [])) := by
  refine ⟨?_, ?_, ?_, ?_⟩
  · intro fetch init n e h
    simp only [listMonitorRun, monitorRun, h]
  · intro fetch init n h
    induction n with
    | zero => rfl
    | succ m ih =>
      obtain ⟨e, he⟩ := h m (Nat.lt_succ_self m)
      simp only [listMonitorRun, monitorRun, he]
      exact ih (fun i hi => h i (hi.trans (Nat.lt_succ_self m)))
  · intro fetch init n e h
    simp only [boardMonitorRun, monitorRun, h]
  · intro fetch init n h
    induction n with
    | zero => rfl
    | succ m ih =>
      obtain ⟨e, he⟩ := h m (Nat.lt_succ_self m)
      simp only [boardMonitorRun, monitorRun, he]
      exact ih (fun i hi => h i (hi.trans (Nat.lt_succ_self m)))

/-- Witness for claim C9: with every fetch failing, two rounds of either
monitor leave the baseline at the initial snapshot and never invoke the
callback, and the second round equals the state after the first. -/
theorem failed_fetch_round_swallowed_witness :
    listMonitorRun (fun _ => Except.error "boom")
        [("c1", [("name", Val.s "x")])] 2 =
      listMonitorRun (fun _ => Except.error "boom")
        [("c1", [("name", Val.s "x")])] 1 ∧
    listMonitorRun (fun _ => Except.error "boom")
        [("c1", [("name", Val.s "x")])] 2 =
      ([("c1", [("name", Val.s "x")])], []) ∧
    boardMonitorRun (fun _ => Except.error "boom") [] 2 =
      boardMonitorRun (fun _ => Except.error "boom") [] 1 ∧
    boardMonitorRun (fun _ => Except.error "boom") [] 2 = ([], []) :=
  ⟨failed_fetch_round_swallowed.1 _ _ 1 "boom" rfl,
   failed_fetch_round_swallowed.2.1 _ _ 2 (fun _ _ => ⟨"boom", rfl⟩),
   failed_fetch_round_swallowed.2.2.1 _ _ 1 "boom" rfl,
   failed_fetch_round_swallowed.2.2.2 _ _ 2 (fun _ _ => ⟨"boom", rfl⟩)⟩
